import Mathlib

set_option autoImplicit false

/-!
Verification development for the mIAm conversation session engine.

The repository sources provided are the exploration notebooks
`src/src/mIAm/notebooks/user_senario.ipynb` and
`src/src/mIAm/notebooks/test_miam.ipynb`, which call into
`mIAm.postgres_db.postgres_db_manager.PostgresDBManager`,
`mIAm.graph.trimmer.TRIMMER` and `mIAm.graph.workflow.workflow`.
The Python modules themselves are not among the provided sources, so the
operations below are modelled from the specification, cross-checked against
the concrete inputs, outputs and recorded tracebacks captured in the
notebooks (which include verbatim fragments of `postgres_db_manager.py`
in an error traceback).
-/

namespace MIAm

/-- Message roles, per the spec data model (role ∈ {user, assistant, system}). -/
inductive Role where
  | user
  | assistant
  | system
deriving DecidableEq

/-- A chat message: a role and a content string (content may be empty). -/
structure Message where
  role : Role
  content : String
deriving DecidableEq

/-- Total token cost of a message list under a tokenizer capability `tok`. -/
def tokenSum (tok : Message → Nat) (ms : List Message) : Nat :=
  (ms.map tok).sum

/-- Modelled from the spec: the backward-walking accumulation step of the
Trimmer (§4.4, `mIAm/graph/trimmer.py` is not among the provided sources).
Starting from the most recent message and walking backward, accumulate
messages while the running total stays within the budget; equivalently,
drop oldest messages first until the remaining suffix fits. -/
def budgetSuffix (tok : Message → Nat) (b : Nat) : List Message → List Message
  | [] => []
  | m :: rest =>
      if tokenSum tok (m :: rest) ≤ b then m :: rest
      else budgetSuffix tok b rest

/-- Modelled from the spec: trimming of the non-system part of the history
(§4.4 policies 2–5). If no nonempty suffix fits the budget, the single most
recent message is returned alone (never an empty sequence when at least one
message exists). -/
def trimBody (tok : Message → Nat) (b : Nat) (ms : List Message) : List Message :=
  match budgetSuffix tok b ms with
  | [] =>
      match ms.getLast? with
      | some m => [m]
      | none => []
  | kept :: more => kept :: more

/-- Modelled from the spec: the Trimmer `trim(messages, token_budget,
model_tokenizer)` (§4.4; `TRIMMER` of `mIAm/graph/trimmer.py` is not among
the provided sources). A leading system message is always kept, outside the
budget accounting (policy 1); the remaining messages are trimmed to the
most recent suffix that fits the budget (policies 2–5). -/
def trim (tok : Message → Nat) (b : Nat) : List Message → List Message
  | [] => []
  | m :: rest =>
      if m.role = Role.system then m :: trimBody tok b rest
      else trimBody tok b (m :: rest)

theorem tokenSum_nil (tok : Message → Nat) : tokenSum tok [] = 0 := rfl

theorem tokenSum_cons (tok : Message → Nat) (m : Message) (ms : List Message) :
    tokenSum tok (m :: ms) = tok m + tokenSum tok ms := by
  simp [tokenSum]

/-- The `budgetSuffix` output is within budget, unless it is empty. -/
theorem budgetSuffix_le_or_nil (tok : Message → Nat) (b : Nat) (ms : List Message) :
    tokenSum tok (budgetSuffix tok b ms) ≤ b ∨ budgetSuffix tok b ms = [] := by
  induction ms with
  | nil => right; rfl
  | cons m rest ih =>
      by_cases h : tokenSum tok (m :: rest) ≤ b
      · left
        simp [budgetSuffix, h]
      · simpa [budgetSuffix, h] using ih

/-- If the whole list fits the budget, `budgetSuffix` keeps everything. -/
theorem budgetSuffix_of_le (tok : Message → Nat) (b : Nat) (ms : List Message)
    (h : tokenSum tok ms ≤ b) : budgetSuffix tok b ms = ms := by
  cases ms with
  | nil => rfl
  | cons m rest => simp [budgetSuffix, h]

/-- The `budgetSuffix` output is a suffix obtained by dropping oldest messages first,
and every strictly longer suffix exceeds the budget. -/
theorem budgetSuffix_eq_drop (tok : Message → Nat) (b : Nat) (ms : List Message) :
    ∃ n, budgetSuffix tok b ms = ms.drop n ∧
      ∀ k, k < n → b < tokenSum tok (ms.drop k) := by
  induction ms with
  | nil => exact ⟨0, rfl, fun k hk => absurd hk (Nat.not_lt_zero k)⟩
  | cons m rest ih =>
      by_cases h : tokenSum tok (m :: rest) ≤ b
      · refine ⟨0, ?_, fun k hk => absurd hk (Nat.not_lt_zero k)⟩
        simp [budgetSuffix, h]
      · obtain ⟨n, hn, hmax⟩ := ih
        refine ⟨n + 1, ?_, ?_⟩
        · simpa [budgetSuffix, h] using hn
        · intro k hk
          cases k with
          | zero => simpa using Nat.lt_of_not_le h
          | succ k' =>
              have hk' : k' < n := Nat.lt_of_succ_lt_succ hk
              simpa using hmax k' hk'

/-- If `budgetSuffix` is empty, every nonempty suffix exceeds the budget. -/
theorem budgetSuffix_nil_all_over (tok : Message → Nat) (b : Nat) (ms : List Message)
    (h : budgetSuffix tok b ms = []) :
    ∀ k, k < ms.length → b < tokenSum tok (ms.drop k) := by
  induction ms with
  | nil => intro k hk; exact absurd hk (Nat.not_lt_zero k)
  | cons m rest ih =>
      by_cases hb : tokenSum tok (m :: rest) ≤ b
      · simp [budgetSuffix, hb] at h
      · intro k hk
        cases k with
        | zero => simpa using Nat.lt_of_not_le hb
        | succ k' =>
            have h' : budgetSuffix tok b rest = [] := by
              simpa [budgetSuffix, hb] using h
            have hk' : k' < rest.length := by
              simpa using Nat.lt_of_succ_lt_succ hk
            simpa using ih h' k' hk'

/-- If `budgetSuffix` is empty, the most recent message alone exceeds the budget. -/
theorem budgetSuffix_nil_last_over (tok : Message → Nat) (b : Nat) :
    ∀ (ms : List Message) (m : Message), budgetSuffix tok b ms = [] →
      ms.getLast? = some m → b < tokenSum tok [m]
  | [], _, _, hl => by simp at hl
  | [m0], m, hb, hl => by
      have hm : m0 = m := by simpa using hl
      by_cases h : tokenSum tok [m0] ≤ b
      · simp [budgetSuffix, h] at hb
      · subst hm; exact Nat.lt_of_not_le h
  | m0 :: m1 :: r, m, hb, hl => by
      by_cases h : tokenSum tok (m0 :: m1 :: r) ≤ b
      · simp [budgetSuffix, h] at hb
      · have hb' : budgetSuffix tok b (m1 :: r) = [] := by
          simpa [budgetSuffix, h] using hb
        have hl' : (m1 :: r).getLast? = some m := by
          simpa [List.getLast?_cons_cons] using hl
        exact budgetSuffix_nil_last_over tok b (m1 :: r) m hb' hl'

theorem trimBody_nil (tok : Message → Nat) (b : Nat) : trimBody tok b [] = [] := rfl

/-- If the whole list fits the budget, `trimBody` keeps everything. -/
theorem trimBody_of_le (tok : Message → Nat) (b : Nat) (ms : List Message)
    (h : tokenSum tok ms ≤ b) : trimBody tok b ms = ms := by
  cases ms with
  | nil => rfl
  | cons m rest =>
      have hb : budgetSuffix tok b (m :: rest) = m :: rest := budgetSuffix_of_le tok b _ h
      simp [trimBody, hb]

/-- Trimming a singleton returns that singleton (overflow policy). -/
theorem trimBody_singleton (tok : Message → Nat) (b : Nat) (m : Message) :
    trimBody tok b [m] = [m] := by
  by_cases h : tokenSum tok [m] ≤ b
  · exact trimBody_of_le tok b [m] h
  · simp [trimBody, budgetSuffix, h]

/-- The output of `trimBody` either fits the budget or is a single message. -/
theorem trimBody_le_or_single (tok : Message → Nat) (b : Nat) (ms : List Message) :
    tokenSum tok (trimBody tok b ms) ≤ b ∨ ∃ m, trimBody tok b ms = [m] := by
  rcases hbs : budgetSuffix tok b ms with _ | ⟨u, us⟩
  · rcases hl : ms.getLast? with _ | m
    · left; simp [trimBody, hbs, hl, tokenSum]
    · right; exact ⟨m, by simp [trimBody, hbs, hl]⟩
  · rcases budgetSuffix_le_or_nil tok b ms with h | h
    · left
      have : trimBody tok b ms = budgetSuffix tok b ms := by simp [trimBody, hbs]
      rw [this]; exact h
    · rw [hbs] at h; cases h

theorem trimBody_idem (tok : Message → Nat) (b : Nat) (ms : List Message) :
    trimBody tok b (trimBody tok b ms) = trimBody tok b ms := by
  rcases trimBody_le_or_single tok b ms with h | ⟨m, hm⟩
  · exact trimBody_of_le tok b _ h
  · rw [hm]; exact trimBody_singleton tok b m

theorem trimBody_ne_nil (tok : Message → Nat) (b : Nat) (ms : List Message)
    (h : ms ≠ []) : trimBody tok b ms ≠ [] := by
  rcases hbs : budgetSuffix tok b ms with _ | ⟨u, us⟩
  · rcases hl : ms.getLast? with _ | m
    · exact absurd (List.getLast?_eq_none_iff.mp hl) h
    · simp [trimBody, hbs, hl]
  · simp [trimBody, hbs]

/-- The leading system message of a history, if present (Trimmer policy 1). -/
def sysLead : List Message → List Message
  | [] => []
  | m :: _ => if m.role = Role.system then [m] else []

/-- The history after removing the leading system message, if present. -/
def afterLead : List Message → List Message
  | [] => []
  | m :: rest => if m.role = Role.system then rest else m :: rest

theorem trim_eq_lead_append (tok : Message → Nat) (b : Nat) (ms : List Message) :
    trim tok b ms = sysLead ms ++ trimBody tok b (afterLead ms) := by
  cases ms with
  | nil => rfl
  | cons m rest =>
      by_cases h : m.role = Role.system
      · simp [trim, sysLead, afterLead, h]
      · simp [trim, sysLead, afterLead, h]

/-- Dropping all but one element of a list leaves its last element. -/
theorem drop_pred_eq_getLast {α : Type} :
    ∀ (l : List α) (m : α), l.getLast? = some m → l.drop (l.length - 1) = [m]
  | [], _, hl => by simp at hl
  | [m0], m, hl => by
      have : m0 = m := by simpa using hl
      simp [this]
  | m0 :: m1 :: r, m, hl => by
      have hl' : (m1 :: r).getLast? = some m := by
        simpa [List.getLast?_cons_cons] using hl
      have ih := drop_pred_eq_getLast (m1 :: r) m hl'
      simpa [List.length_cons, Nat.succ_sub_one] using ih

/-- C3: For every ordered message sequence `m`, token budget `b`, and
tokenizer, trim is idempotent: `trim (trim m b) b = trim m b`. -/
theorem trim_idempotent (tok : Message → Nat) (b : Nat) (ms : List Message) :
    trim tok b (trim tok b ms) = trim tok b ms := by
  cases ms with
  | nil => rfl
  | cons m rest =>
      by_cases hsys : m.role = Role.system
      · simp only [trim, if_pos hsys]
        rw [trimBody_idem]
      · simp only [trim, if_neg hsys]
        rcases htb : trimBody tok b (m :: rest) with _ | ⟨u, us⟩
        · rfl
        · have hshape := trimBody_le_or_single tok b (m :: rest)
          rw [htb] at hshape
          by_cases hu : u.role = Role.system
          · simp only [trim, if_pos hu]
            rcases hshape with h | ⟨m', hm'⟩
            · have hus : tokenSum tok us ≤ b := by
                rw [tokenSum_cons] at h
                exact Nat.le_trans (Nat.le_add_left _ _) h
              rw [trimBody_of_le tok b us hus]
            · have : us = [] := by
                cases hm'' : us with
                | nil => rfl
                | cons a t => rw [hm''] at hm'; simp at hm'
              rw [this, trimBody_nil]
          · simp only [trim, if_neg hu]
            rw [← htb]
            exact trimBody_idem tok b (m :: rest)

/-- C4: `trim` keeps the leading system message and otherwise selects a
contiguous most-recent suffix of the remaining messages, in original order:
it drops oldest messages first (every longer suffix exceeds the budget) and
the kept suffix fits the budget unless it is the single most recent message. -/
theorem trim_recent_suffix (tok : Message → Nat) (b : Nat) (ms : List Message) :
    ∃ n, trim tok b ms = sysLead ms ++ (afterLead ms).drop n ∧
      (∀ k, k < n → b < tokenSum tok ((afterLead ms).drop k)) ∧
      (tokenSum tok ((afterLead ms).drop n) ≤ b ∨
        ((afterLead ms).drop n).length = 1) := by
  rw [trim_eq_lead_append]
  rcases hbs : budgetSuffix tok b (afterLead ms) with _ | ⟨u, us⟩
  · rcases hl : (afterLead ms).getLast? with _ | m
    · have hnil : afterLead ms = [] := List.getLast?_eq_none_iff.mp hl
      exact ⟨0, by simp [hnil, trimBody_nil],
        fun k hk => absurd hk (Nat.not_lt_zero k),
        Or.inl (by simp [hnil, tokenSum])⟩
    · refine ⟨(afterLead ms).length - 1, ?_, ?_, Or.inr ?_⟩
      · rw [drop_pred_eq_getLast (afterLead ms) m hl]
        simp [trimBody, hbs, hl]
      · intro k hk
        exact budgetSuffix_nil_all_over tok b (afterLead ms) hbs k
          (Nat.lt_of_lt_of_le hk (Nat.sub_le _ _))
      · rw [drop_pred_eq_getLast (afterLead ms) m hl]
        rfl
  · obtain ⟨n, hn, hmax⟩ := budgetSuffix_eq_drop tok b (afterLead ms)
    refine ⟨n, ?_, hmax, Or.inl ?_⟩
    · rw [← hn]
      simp [trimBody, hbs]
    · rw [← hn]
      rcases budgetSuffix_le_or_nil tok b (afterLead ms) with h | h
      · exact h
      · rw [h]; simp [tokenSum]

/-- C5: for every non-empty message sequence, `trim` is non-empty: even if
the single most recent message exceeds the budget, it is returned alone. -/
theorem trim_ne_nil (tok : Message → Nat) (b : Nat) (ms : List Message)
    (h : ms ≠ []) : trim tok b ms ≠ [] := by
  cases ms with
  | nil => exact absurd rfl h
  | cons m rest =>
      by_cases hsys : m.role = Role.system
      · simp [trim, hsys]
      · simp only [trim, if_neg hsys]
        exact trimBody_ne_nil tok b (m :: rest) (by simp)

/-- Witness for C5 at a concrete input: a single user message whose cost
exceeds the budget is still kept. -/
theorem trim_ne_nil_witness :
    ([{ role := Role.user, content := "hello" }] : List Message) ≠ [] ∧
      trim (fun m => m.content.length) 1
        [{ role := Role.user, content := "hello" }] ≠ [] :=
  ⟨by decide, trim_ne_nil (fun m => m.content.length) 1
    [{ role := Role.user, content := "hello" }] (by decide)⟩

/-- Workflow state machine states, per spec §4.5:
AWAITING_INPUT → INTENT_CLASSIFICATION → SLOT_COLLECTION → GENERATION →
RESPONDED (terminal for the turn). -/
inductive WorkflowState where
  | awaitingInput
  | intentClassification
  | slotCollection
  | generation
  | responded
deriving DecidableEq

/-- A checkpoint: the ordered message history of a thread plus the workflow
variables (here, the state-machine position), per the spec data model. -/
structure Checkpoint where
  messages : List Message
  wstate : WorkflowState
deriving DecidableEq

/-- A user row, with the column names observed in the recorded notebook
outputs (`thread_number`, `token_number`, `last_login`, `created_at`). -/
structure UserRec where
  id : Nat
  firstName : String
  lastName : String
  email : String
  passwordHash : String
  phone : String
  birthDate : String
  address : String
  city : String
  country : String
  threadNumber : Nat
  tokenNumber : Nat
  lastLogin : Option Nat
  createdAt : Nat
deriving DecidableEq

/-- A thread row: id, owning user, and name. -/
structure ThreadRec where
  id : Nat
  ownerId : Nat
  name : String
deriving DecidableEq

/-- The durable store: user rows, thread rows, and one checkpoint per
thread id, plus the id sequences. -/
structure DBState where
  users : List UserRec
  threads : List ThreadRec
  checkpoints : List (Nat × Checkpoint)
  nextUserId : Nat
  nextThreadId : Nat
deriving DecidableEq

/-- The error taxonomy of spec §7, plus the raw runtime fault observed in
the recorded notebook traceback (a bare `raise` with no active exception). -/
inductive DBError where
  | DuplicateEmailError
  | AuthenticationError
  | NotFoundError
  | RuntimeError (msg : String)
deriving DecidableEq

/-- Modelled from the spec: the salted one-way password hash used by
`register_user` (§4.1; the hashing code of `postgres_db_manager.py` is not
among the provided sources). Modelled as a fixed-salt injective encoding. -/
def hashPassword (pwd : String) : String := "salted:" ++ pwd

/-- The case-insensitive comparison key of an email (spec data model: email
is unique case-insensitively). -/
def emailKey (e : String) : List Char := e.data.map Char.toLower

/-- The user row created by a registration: profile fields, hashed password,
counters at zero and no recorded login, per the recorded registration output
of `user_senario.ipynb`. -/
def newUserRec (s : DBState) (now : Nat)
    (fn ln email pw ph bd ad ci co : String) : UserRec :=
  { id := s.nextUserId
    firstName := fn
    lastName := ln
    email := email
    passwordHash := hashPassword pw
    phone := ph
    birthDate := bd
    address := ad
    city := ci
    country := co
    threadNumber := 0
    tokenNumber := 0
    lastLogin := none
    createdAt := now }

/-- Modelled from the spec: `register(profile, plaintext_password)` of the
AccountStore (§4.1; `PostgresDBManager.register_user` is not among the
provided sources). The password is hashed before storage; the insert fails
with `DuplicateEmailError` when a user with the same email
(case-insensitively) already exists, detected at insertion by the unique
constraint; the new row starts with thread counter 0, token counter 0 and a
null `last_login`, as in the recorded registration output of
`user_senario.ipynb`. On error the store is left unchanged. -/
def register_user (s : DBState) (now : Nat)
    (fn ln email pw ph bd ad ci co : String) :
    Except DBError UserRec × DBState :=
  if s.users.any (fun u => emailKey u.email == emailKey email) then
    (Except.error DBError.DuplicateEmailError, s)
  else
    (Except.ok (newUserRec s now fn ln email pw ph bd ad ci co),
      { s with users := s.users ++ [newUserRec s now fn ln email pw ph bd ad ci co],
               nextUserId := s.nextUserId + 1 })

/-- Modelled from the spec: `authenticate(email, plaintext_password)` of the
AccountStore (§4.1; `PostgresDBManager.authenticate_user` is not among the
provided sources). Fails with `AuthenticationError` when the email is
unknown or the password hash does not match; on success returns the user and
updates `last_login` to the current time as its only side effect, as in the
recorded authentication output of `user_senario.ipynb`. -/
def authenticate_user (s : DBState) (now : Nat) (email password : String) :
    Except DBError UserRec × DBState :=
  match s.users.find? (fun u => emailKey u.email == emailKey email) with
  | none => (Except.error DBError.AuthenticationError, s)
  | some u =>
      if u.passwordHash == hashPassword password then
        (Except.ok { u with lastLogin := some now },
          { s with users := s.users.map (fun v =>
              if v.id == u.id then { v with lastLogin := some now } else v) })
      else (Except.error DBError.AuthenticationError, s)

/-- Thread deletion, following the implementation fragment recorded verbatim
in the error traceback of `user_senario.ipynb`
(`postgres_db_manager.py`, lines 570–597): look up the owning user of the
thread; if no row is found, the code prints "Thread ID ... not found" and
executes a bare `raise` with no active exception, which surfaces as
`RuntimeError: No active exception to reraise` (not as `NotFoundError`);
otherwise it deletes the thread's messages and checkpoint rows and then the
thread row. -/
def delete_thread (s : DBState) (threadId : Nat) :
    Except DBError Bool × DBState :=
  match s.threads.find? (fun t => t.id == threadId) with
  | none => (Except.error (DBError.RuntimeError "No active exception to reraise"), s)
  | some _ =>
      (Except.ok true,
        { s with
            threads := s.threads.filter (fun t => t.id != threadId)
            checkpoints := s.checkpoints.filter (fun c => c.1 != threadId) })

/-- Modelled from the spec: `deleteUser(user_id)` of the AccountStore
(§4.1; `PostgresDBManager.delete_user` is not among the provided sources).
Fails with `NotFoundError` when the user does not exist; otherwise deletes
the user row and cascades to all owned threads and their checkpoints, as in
the recorded `delete_user` output of `user_senario.ipynb` which shows owned
threads being deleted first. -/
def delete_user (s : DBState) (userId : Nat) :
    Except DBError Bool × DBState :=
  match s.users.find? (fun u => u.id == userId) with
  | none => (Except.error DBError.NotFoundError, s)
  | some _ =>
      let ownedIds := (s.threads.filter (fun t => t.ownerId == userId)).map
        (fun t => t.id)
      (Except.ok true,
        { s with
            users := s.users.filter (fun u => u.id != userId)
            threads := s.threads.filter (fun t => t.ownerId != userId)
            checkpoints := s.checkpoints.filter
              (fun c => !(ownedIds.contains c.1)) })

/-- An empty store, as after initialization of a fresh database. -/
def emptyDB : DBState :=
  { users := [], threads := [], checkpoints := [], nextUserId := 1, nextThreadId := 1 }

/-- A concrete stored user, mirroring the first registered user recorded in
`user_senario.ipynb`. -/
def sampleUser : UserRec :=
  { id := 1
    firstName := "branis"
    lastName := "ghoul"
    email := "branisghoul02@hotmail.com"
    passwordHash := hashPassword "sing06"
    phone := "07 66 56 20 97"
    birthDate := "1998-06-13"
    address := "12 quai gambetta"
    city := "juvisy sur orge"
    country := "france"
    threadNumber := 1
    tokenNumber := 0
    lastLogin := none
    createdAt := 0 }

/-- A concrete checkpoint for the sample thread. -/
def sampleCp : Checkpoint :=
  { messages := [{ role := Role.user, content := "Hi" },
                 { role := Role.assistant, content := "Hello" }]
    wstate := WorkflowState.slotCollection }

/-- A concrete store holding one user owning one thread with a checkpoint. -/
def sampleDB : DBState :=
  { users := [sampleUser]
    threads := [{ id := 3, ownerId := 1, name := "t3" }]
    checkpoints := [(3, sampleCp)]
    nextUserId := 2
    nextThreadId := 4 }

/-- A search that failed on a list keeps failing on it; appending a matching
element makes it the found one. -/
theorem find?_append_singleton {α : Type} (p : α → Bool) (x : α) :
    ∀ l : List α, l.find? p = none → p x = true → (l ++ [x]).find? p = some x
  | [], _, hx => by simp [List.find?, hx]
  | a :: l, hl, hx => by
      have ha : p a = false := by
        rcases hpa : p a with _ | _
        · rfl
        · simp [List.find?, hpa] at hl
      have hl' : l.find? p = none := by
        simpa [List.find?, ha] using hl
      simpa [List.find?, ha] using find?_append_singleton p x l hl' hx

/-- C1: the recorded code raises a bare re-raise `RuntimeError` — not
`NotFoundError` — when `delete_thread` is called on a thread id that does
not exist in the store (here thread id 3 on an empty store, the exact
failure recorded in `user_senario.ipynb`). -/
theorem delete_thread_missing_runtime_fault :
    delete_thread emptyDB 3 =
      (Except.error (DBError.RuntimeError "No active exception to reraise"),
        emptyDB) ∧
    (delete_thread emptyDB 3).1 ≠ Except.error DBError.NotFoundError := by
  refine ⟨rfl, ?_⟩
  intro h
  simp [delete_thread, emptyDB] at h

/-- C2: registering a second user whose email matches a stored user's email
case-insensitively fails with `DuplicateEmailError`, and the first user's
stored record remains unchanged and queryable. -/
theorem register_duplicate_email (s : DBState) (now : Nat)
    (fn ln email pw ph bd ad ci co : String) (u : UserRec)
    (hu : u ∈ s.users) (he : emailKey u.email = emailKey email) :
    (register_user s now fn ln email pw ph bd ad ci co).1 =
      Except.error DBError.DuplicateEmailError ∧
    (register_user s now fn ln email pw ph bd ad ci co).2 = s ∧
    u ∈ (register_user s now fn ln email pw ph bd ad ci co).2.users := by
  have hany : s.users.any (fun v => emailKey v.email == emailKey email) = true :=
    List.any_eq_true.mpr ⟨u, hu, by simpa using he⟩
  refine ⟨?_, ?_, ?_⟩
  · simp [register_user, hany]
  · simp [register_user, hany]
  · simpa [register_user, hany] using hu

/-- Witness for C2: a second registration with the stored email in different
letter case fails with `DuplicateEmailError` and leaves the store unchanged. -/
theorem register_duplicate_email_witness :
    sampleUser ∈ sampleDB.users ∧
    emailKey sampleUser.email = emailKey "BranisGhoul02@hotmail.com" ∧
    ((register_user sampleDB 7 "x" "y" "BranisGhoul02@hotmail.com" "pw" "p" "b"
        "a" "c" "f").1 = Except.error DBError.DuplicateEmailError ∧
      (register_user sampleDB 7 "x" "y" "BranisGhoul02@hotmail.com" "pw" "p" "b"
        "a" "c" "f").2 = sampleDB ∧
      sampleUser ∈ (register_user sampleDB 7 "x" "y" "BranisGhoul02@hotmail.com"
        "pw" "p" "b" "a" "c" "f").2.users) :=
  ⟨by decide, by decide,
    register_duplicate_email sampleDB 7 "x" "y" "BranisGhoul02@hotmail.com" "pw"
      "p" "b" "a" "c" "f" sampleUser (by decide) (by decide)⟩

/-- If the email lookup finds a user whose stored hash matches the hash of
the presented password, authentication succeeds and returns that user with
`last_login` set to the current time. -/
theorem authenticate_found_ok (st : DBState) (now2 : Nat) (email pw : String)
    (nu : UserRec)
    (hfind : st.users.find? (fun v => emailKey v.email == emailKey email) =
      some nu)
    (hpw : nu.passwordHash = hashPassword pw) :
    (authenticate_user st now2 email pw).1 =
      Except.ok { nu with lastLogin := some now2 } := by
  simp only [authenticate_user, hfind]
  simp [hpw]

/-- C10: a successful registration stores the new user with thread counter 0,
token counter 0 and a null `last_login`; the first successful authentication
of that user is what makes `last_login` non-null. -/
theorem register_user_initial_counters (s : DBState) (now : Nat)
    (fn ln email pw ph bd ad ci co : String) (u : UserRec) (s' : DBState)
    (h : register_user s now fn ln email pw ph bd ad ci co = (Except.ok u, s')) :
    u.threadNumber = 0 ∧ u.tokenNumber = 0 ∧ u.lastLogin = none ∧
    u ∈ s'.users ∧
    ∀ now2 : Nat, (authenticate_user s' now2 email pw).1 =
      Except.ok { u with lastLogin := some now2 } := by
  by_cases hany : s.users.any (fun v => emailKey v.email == emailKey email) = true
  · simp [register_user, hany] at h
  · have hany' : s.users.any (fun v => emailKey v.email == emailKey email) = false :=
      Bool.eq_false_iff.mpr hany
    simp only [register_user, hany', Bool.false_eq_true, if_false,
      Prod.mk.injEq] at h
    obtain ⟨hu, hs'⟩ := h
    injection hu with hu2
    refine ⟨by rw [← hu2]; rfl, by rw [← hu2]; rfl, by rw [← hu2]; rfl, ?_, ?_⟩
    · rw [← hs', ← hu2]
      simp
    · intro now2
      have hfind : s'.users.find?
          (fun v => emailKey v.email == emailKey email) =
          some (newUserRec s now fn ln email pw ph bd ad ci co) := by
        rw [← hs']
        refine find?_append_singleton _ _ s.users ?_ (by simp [newUserRec])
        rw [List.find?_eq_none]
        intro x hx
        have := List.any_eq_false.mp hany' x hx
        simpa using this
      rw [← hu2]
      exact authenticate_found_ok s' now2 email pw _ hfind rfl

/-- Witness for C10: registering a fresh email on the sample store yields a
user with zero counters and no `last_login`, and authenticating it
afterwards sets `last_login`. -/
theorem register_user_initial_counters_witness :
    register_user sampleDB 9 "merwane" "bourie" "merwanebourie@gmail.com"
        "sing08" "07 22 99 88 77" "2000-06-13" "alger" "algiers" "algeria" =
      (Except.ok (newUserRec sampleDB 9 "merwane" "bourie"
          "merwanebourie@gmail.com" "sing08" "07 22 99 88 77" "2000-06-13"
          "alger" "algiers" "algeria"),
        (register_user sampleDB 9 "merwane" "bourie" "merwanebourie@gmail.com"
          "sing08" "07 22 99 88 77" "2000-06-13" "alger" "algiers" "algeria").2) ∧
    ((newUserRec sampleDB 9 "merwane" "bourie" "merwanebourie@gmail.com"
        "sing08" "07 22 99 88 77" "2000-06-13" "alger" "algiers"
        "algeria").threadNumber = 0 ∧
      (newUserRec sampleDB 9 "merwane" "bourie" "merwanebourie@gmail.com"
        "sing08" "07 22 99 88 77" "2000-06-13" "alger" "algiers"
        "algeria").tokenNumber = 0 ∧
      (newUserRec sampleDB 9 "merwane" "bourie" "merwanebourie@gmail.com"
        "sing08" "07 22 99 88 77" "2000-06-13" "alger" "algiers"
        "algeria").lastLogin = none ∧
      (authenticate_user (register_user sampleDB 9 "merwane" "bourie"
          "merwanebourie@gmail.com" "sing08" "07 22 99 88 77" "2000-06-13"
          "alger" "algiers" "algeria").2 5 "merwanebourie@gmail.com"
          "sing08").1 =
        Except.ok { newUserRec sampleDB 9 "merwane" "bourie"
          "merwanebourie@gmail.com" "sing08" "07 22 99 88 77" "2000-06-13"
          "alger" "algiers" "algeria" with lastLogin := some 5 }) := by
  have h := register_user_initial_counters sampleDB 9 "merwane" "bourie"
    "merwanebourie@gmail.com" "sing08" "07 22 99 88 77" "2000-06-13" "alger"
    "algiers" "algeria"
    (newUserRec sampleDB 9 "merwane" "bourie" "merwanebourie@gmail.com"
      "sing08" "07 22 99 88 77" "2000-06-13" "alger" "algiers" "algeria")
    (register_user sampleDB 9 "merwane" "bourie" "merwanebourie@gmail.com"
      "sing08" "07 22 99 88 77" "2000-06-13" "alger" "algiers" "algeria").2
    rfl
  exact ⟨rfl, h.1, h.2.1, h.2.2.1, h.2.2.2.2 5⟩

/-- C6: authentication with an unknown email or a wrong password fails with
`AuthenticationError` and leaves the store unchanged; authentication with
the correct password succeeds, returns the user, and its only observable
side effect is setting that user's `last_login` to the current time. -/
theorem authenticate_user_spec (s : DBState) (now : Nat) (email pw : String) :
    (s.users.find? (fun v => emailKey v.email == emailKey email) = none →
      authenticate_user s now email pw =
        (Except.error DBError.AuthenticationError, s)) ∧
    (∀ u, s.users.find? (fun v => emailKey v.email == emailKey email) = some u →
      (u.passwordHash ≠ hashPassword pw →
        authenticate_user s now email pw =
          (Except.error DBError.AuthenticationError, s)) ∧
      (u.passwordHash = hashPassword pw →
        (authenticate_user s now email pw).1 =
          Except.ok { u with lastLogin := some now } ∧
        { u with lastLogin := some now } ∈
          (authenticate_user s now email pw).2.users ∧
        (∀ v, v ∈ s.users → v.id ≠ u.id →
          v ∈ (authenticate_user s now email pw).2.users) ∧
        (authenticate_user s now email pw).2.users.length = s.users.length ∧
        (authenticate_user s now email pw).2.threads = s.threads ∧
        (authenticate_user s now email pw).2.checkpoints = s.checkpoints)) := by
  constructor
  · intro hfind
    simp [authenticate_user, hfind]
  · intro u hfind
    constructor
    · intro hne
      have hbeq : (u.passwordHash == hashPassword pw) = false := by
        simpa using hne
      simp [authenticate_user, hfind, hbeq]
    · intro heq
      have hbeq : (u.passwordHash == hashPassword pw) = true := by
        simpa using heq
      have hu : u ∈ s.users := List.mem_of_find?_eq_some hfind
      refine ⟨?_, ?_, ?_, ?_, ?_, ?_⟩
      · simp [authenticate_user, hfind, hbeq]
      · simp only [authenticate_user, hfind, hbeq, if_true]
        have hm := List.mem_map_of_mem
          (fun v => if v.id == u.id then { v with lastLogin := some now } else v) hu
        simpa using hm
      · intro v hv hvne
        simp only [authenticate_user, hfind, hbeq, if_true]
        have hm := List.mem_map_of_mem
          (fun w => if w.id == u.id then { w with lastLogin := some now } else w) hv
        have : (v.id == u.id) = false := by simpa using hvne
        simpa [this] using hm
      · simp [authenticate_user, hfind, hbeq]
      · simp [authenticate_user, hfind, hbeq]
      · simp [authenticate_user, hfind, hbeq]

/-- Witness for C6: the recorded scenario — authenticating the sample user
with a wrong password fails and changes nothing; with the correct password
it succeeds and sets `last_login`. -/
theorem authenticate_user_spec_witness :
    sampleDB.users.find?
      (fun v => emailKey v.email == emailKey "branisghoul02@hotmail.com") =
      some sampleUser ∧
    sampleUser.passwordHash ≠ hashPassword "wrong" ∧
    authenticate_user sampleDB 11 "branisghoul02@hotmail.com" "wrong" =
      (Except.error DBError.AuthenticationError, sampleDB) ∧
    sampleUser.passwordHash = hashPassword "sing06" ∧
    (authenticate_user sampleDB 11 "branisghoul02@hotmail.com" "sing06").1 =
      Except.ok { sampleUser with lastLogin := some 11 } := by
  have h1 := (authenticate_user_spec sampleDB 11 "branisghoul02@hotmail.com"
    "wrong").2 sampleUser rfl
  have h2 := (authenticate_user_spec sampleDB 11 "branisghoul02@hotmail.com"
    "sing06").2 sampleUser rfl
  exact ⟨rfl, by decide, h1.1 (by decide), by decide, (h2.2 (by decide)).1⟩

/-- C9: deleting an existing user removes the user row, every owned thread
and every checkpoint of an owned thread, preserving referential integrity
(no orphan thread or checkpoint rows); deleting a nonexistent user id fails
with `NotFoundError` and changes nothing. -/
theorem delete_user_spec (s : DBState) (userId : Nat) :
    (s.users.find? (fun u => u.id == userId) = none →
      delete_user s userId = (Except.error DBError.NotFoundError, s)) ∧
    (∀ u, s.users.find? (fun u => u.id == userId) = some u →
      (delete_user s userId).1 = Except.ok true ∧
      (∀ v, v ∈ (delete_user s userId).2.users → v.id ≠ userId) ∧
      (∀ t, t ∈ (delete_user s userId).2.threads → t.ownerId ≠ userId) ∧
      (∀ c, c ∈ (delete_user s userId).2.checkpoints →
        ∀ t, t ∈ s.threads → t.id = c.1 → t.ownerId ≠ userId) ∧
      ((∀ t, t ∈ s.threads → ∃ w, w ∈ s.users ∧ w.id = t.ownerId) →
        ∀ t, t ∈ (delete_user s userId).2.threads →
          ∃ w, w ∈ (delete_user s userId).2.users ∧ w.id = t.ownerId) ∧
      ((∀ c, c ∈ s.checkpoints → ∃ t, t ∈ s.threads ∧ t.id = c.1) →
        ∀ c, c ∈ (delete_user s userId).2.checkpoints →
          ∃ t, t ∈ (delete_user s userId).2.threads ∧ t.id = c.1)) := by
  constructor
  · intro hfind
    simp [delete_user, hfind]
  · intro u hfind
    refine ⟨?_, ?_, ?_, ?_, ?_, ?_⟩
    · simp [delete_user, hfind]
    · intro v hv
      simp only [delete_user, hfind] at hv
      have := (List.mem_filter.mp hv).2
      simpa using this
    · intro t ht
      simp only [delete_user, hfind] at ht
      have := (List.mem_filter.mp ht).2
      simpa using this
    · intro c hc t ht htc hown
      simp only [delete_user, hfind] at hc
      have hnc := (List.mem_filter.mp hc).2
      have htid : t.id ∈ (s.threads.filter (fun t => t.ownerId == userId)).map
          (fun t => t.id) := by
        refine List.mem_map_of_mem (fun t : ThreadRec => t.id) ?_
        exact List.mem_filter.mpr ⟨ht, by simpa using hown⟩
      rw [htc] at htid
      simp [htid] at hnc
    · intro hint t ht
      simp only [delete_user, hfind] at ht ⊢
      have ht' := List.mem_filter.mp ht
      obtain ⟨w, hw, hwid⟩ := hint t ht'.1
      refine ⟨w, List.mem_filter.mpr ⟨hw, ?_⟩, hwid⟩
      have : t.ownerId ≠ userId := by simpa using ht'.2
      simp [hwid, this]
    · intro hint c hc
      simp only [delete_user, hfind] at hc ⊢
      have hc' := List.mem_filter.mp hc
      have hnc := hc'.2
      obtain ⟨t, ht, htc⟩ := hint c hc'.1
      have hown : t.ownerId ≠ userId := by
        intro hcon
        have htid : t.id ∈ (s.threads.filter (fun t => t.ownerId == userId)).map
            (fun t => t.id) := by
          refine List.mem_map_of_mem (fun t : ThreadRec => t.id) ?_
          exact List.mem_filter.mpr ⟨ht, by simpa using hcon⟩
        rw [htc] at htid
        simp [htid] at hnc
      refine ⟨t, List.mem_filter.mpr ⟨ht, by simpa using hown⟩, htc⟩

/-- Witness for C9: deleting the sample user removes the owned thread and
its checkpoint with no orphans left, and deleting a nonexistent user id
fails with `NotFoundError`. -/
theorem delete_user_spec_witness :
    sampleDB.users.find? (fun u => u.id == 1) = some sampleUser ∧
    (delete_user sampleDB 1).1 = Except.ok true ∧
    (∀ t, t ∈ (delete_user sampleDB 1).2.threads → t.ownerId ≠ 1) ∧
    (∀ c, c ∈ (delete_user sampleDB 1).2.checkpoints →
      ∃ t, t ∈ (delete_user sampleDB 1).2.threads ∧ t.id = c.1) ∧
    sampleDB.users.find? (fun u => u.id == 99) = none ∧
    delete_user sampleDB 99 = (Except.error DBError.NotFoundError, sampleDB) := by
  have h := (delete_user_spec sampleDB 1).2 sampleUser rfl
  have h99 := (delete_user_spec sampleDB 99).1 rfl
  exact ⟨rfl, h.1, h.2.2.1, h.2.2.2.2.2 (by decide), rfl, h99⟩

/-- The latest checkpoint stored for a thread, or none for a brand-new
thread (spec §4.3 `get`). -/
def getCheckpoint (s : DBState) (tid : Nat) : Option Checkpoint :=
  (s.checkpoints.find? (fun c => c.1 == tid)).map (fun c => c.2)

/-- Atomic replacement of a thread's current checkpoint (spec §4.3 `put`). -/
def putCheckpoint (s : DBState) (tid : Nat) (cp : Checkpoint) : DBState :=
  { s with checkpoints :=
      if s.checkpoints.any (fun c => c.1 == tid) then
        s.checkpoints.map (fun c => if c.1 == tid then (tid, cp) else c)
      else s.checkpoints ++ [(tid, cp)] }

/-- Intent classes of an inbound message, per spec §4.5. -/
inductive Intent where
  | chitchat
  | recipeRequest
  | slotAnswer
  | abort
deriving DecidableEq

/-- Modelled from the spec: the per-message transition of the workflow state
machine (§4.5 state diagram; `mIAm/graph/workflow.py` is not among the
provided sources): AWAITING_INPUT → INTENT_CLASSIFICATION →
SLOT_COLLECTION (loop until satisfied or user aborts) → GENERATION →
RESPONDED, one transition per inbound message. -/
def advanceState (st : WorkflowState) (i : Intent) : WorkflowState :=
  match st, i with
  | _, Intent.abort => WorkflowState.responded
  | WorkflowState.awaitingInput, _ => WorkflowState.intentClassification
  | WorkflowState.intentClassification, _ => WorkflowState.slotCollection
  | WorkflowState.slotCollection, Intent.slotAnswer => WorkflowState.generation
  | WorkflowState.slotCollection, _ => WorkflowState.slotCollection
  | WorkflowState.generation, _ => WorkflowState.responded
  | WorkflowState.responded, _ => WorkflowState.intentClassification

/-- Engine-level failure modes of a turn (spec §7). -/
inductive EngineError where
  | NotFoundError
  | CollaboratorFailureError
deriving DecidableEq

/-- The empty checkpoint used for a brand-new thread (spec §4.5 step 1). -/
def defaultCp : Checkpoint :=
  { messages := [], wstate := WorkflowState.awaitingInput }

/-- Modelled from the spec: `handleTurn(thread_id, user_id, incoming)` of
the SessionEngine (§4.5 steps 1–7; the compiled `workflow` of
`mIAm/graph/workflow.py` is not among the provided sources). Loads the
latest checkpoint (or an empty one), appends the incoming user message even
when its content is the empty string, applies the Trimmer only to build the
prompt for the collaborator, advances the state machine once, appends the
assistant reply to the untrimmed history, increments the user's token
counter by the reported usage, and persists the new checkpoint. A missing
thread fails with `NotFoundError`; a collaborator failure fails the turn
with no state change. -/
def handleTurn (tok : Message → Nat) (budget : Nat)
    (classify : String → Intent)
    (generate : List Message → Option (String × Nat))
    (s : DBState) (userId threadId : Nat) (incoming : String) :
    Except EngineError (Message × Bool) × DBState :=
  if s.threads.any (fun t => t.id == threadId) then
    let cp := (getCheckpoint s threadId).getD defaultCp
    let history := cp.messages ++ [{ role := Role.user, content := incoming }]
    let st2 := advanceState cp.wstate (classify incoming)
    match generate (trim tok budget history) with
    | none => (Except.error EngineError.CollaboratorFailureError, s)
    | some (text, usage) =>
        let s2 := { s with users := s.users.map (fun u =>
            if u.id == userId then { u with tokenNumber := u.tokenNumber + usage }
            else u) }
        (Except.ok ({ role := Role.assistant, content := text },
            st2 == WorkflowState.responded),
          putCheckpoint s2 threadId
            { messages := history ++ [{ role := Role.assistant, content := text }]
              wstate := st2 })
  else (Except.error EngineError.NotFoundError, s)

/-- An entry search over a key-replaced map finds the replacement. -/
theorem find?_replace_key (tid : Nat) (cp : Checkpoint) :
    ∀ l : List (Nat × Checkpoint), l.any (fun c => c.1 == tid) = true →
      (l.map (fun c => if c.1 == tid then (tid, cp) else c)).find?
        (fun c => c.1 == tid) = some (tid, cp)
  | [], h => by simp at h
  | c0 :: l, h => by
      by_cases h0 : (c0.1 == tid) = true
      · simp [List.find?, h0]
      · have h0' : (c0.1 == tid) = false := Bool.eq_false_iff.mpr h0
        have hl : l.any (fun c => c.1 == tid) = true := by
          simpa [List.any, h0'] using h
        simpa [List.find?, h0'] using find?_replace_key tid cp l hl

/-- A failing Boolean search means the entry search fails too. -/
theorem find?_none_of_any_false {α : Type} (p : α → Bool) (l : List α)
    (h : l.any p = false) : l.find? p = none := by
  rw [List.find?_eq_none]
  intro x hx
  have := List.any_eq_false.mp h x hx
  simp [this]

/-- Reading back a thread's checkpoint right after writing it returns the
written checkpoint. -/
theorem getCheckpoint_putCheckpoint (s : DBState) (tid : Nat) (cp : Checkpoint) :
    getCheckpoint (putCheckpoint s tid cp) tid = some cp := by
  by_cases h : s.checkpoints.any (fun c => c.1 == tid) = true
  · have hrw : (putCheckpoint s tid cp).checkpoints =
        s.checkpoints.map (fun c => if c.1 == tid then (tid, cp) else c) := by
      simp only [putCheckpoint, if_pos h]
    unfold getCheckpoint
    rw [hrw, find?_replace_key tid cp s.checkpoints h]
    rfl
  · have h' : s.checkpoints.any (fun c => c.1 == tid) = false :=
      Bool.eq_false_iff.mpr h
    have hnone : s.checkpoints.find? (fun c => c.1 == tid) = none :=
      find?_none_of_any_false _ _ h'
    have happ := find?_append_singleton (fun c => c.1 == tid) (tid, cp)
      s.checkpoints hnone (by simp)
    simp [getCheckpoint, putCheckpoint, h', happ]

/-- C7: submitting an empty-string user message is a valid turn, not an
error: the engine appends the empty message to the history, advances the
state machine, persists the result, and returns the collaborator's
clarifying assistant reply. -/
theorem handleTurn_empty_message_valid (tok : Message → Nat) (budget : Nat)
    (classify : String → Intent)
    (generate : List Message → Option (String × Nat))
    (s : DBState) (userId threadId : Nat) (text : String) (usage : Nat)
    (hthread : s.threads.any (fun t => t.id == threadId) = true)
    (hgen : generate (trim tok budget
      (((getCheckpoint s threadId).getD defaultCp).messages ++
        [{ role := Role.user, content := "" }])) = some (text, usage)) :
    (handleTurn tok budget classify generate s userId threadId "").1 =
      Except.ok ({ role := Role.assistant, content := text },
        advanceState ((getCheckpoint s threadId).getD defaultCp).wstate
          (classify "") == WorkflowState.responded) ∧
    getCheckpoint
        (handleTurn tok budget classify generate s userId threadId "").2
        threadId =
      some (Checkpoint.mk
        (((getCheckpoint s threadId).getD defaultCp).messages ++
          [{ role := Role.user, content := "" },
           { role := Role.assistant, content := text }])
        (advanceState ((getCheckpoint s threadId).getD defaultCp).wstate
          (classify ""))) := by
  simp only [handleTurn, hthread, if_true]
  rw [hgen]
  constructor
  · rfl
  · have := getCheckpoint_putCheckpoint
      { s with users := s.users.map (fun u =>
          if u.id == userId then { u with tokenNumber := u.tokenNumber + usage }
          else u) } threadId
      (Checkpoint.mk
        ((((getCheckpoint s threadId).getD defaultCp).messages ++
          [{ role := Role.user, content := "" }]) ++
          [{ role := Role.assistant, content := text }])
        (advanceState ((getCheckpoint s threadId).getD defaultCp).wstate
          (classify "")))
    simpa [List.append_assoc] using this

/-- C8: a turn never lets the Trimmer rewrite stored history — the persisted
checkpoint holds the full untrimmed prior history (every stored message is
still there after the turn, whatever the budget), extended by the incoming
user message and the assistant reply; trimming happens only on the
read-side copy used to build the prompt. -/
theorem trim_read_side_copy (tok : Message → Nat) (budget : Nat)
    (classify : String → Intent)
    (generate : List Message → Option (String × Nat))
    (s : DBState) (userId threadId : Nat) (cp : Checkpoint) (incoming : String)
    (r : Message × Bool) (s' : DBState)
    (hcp : getCheckpoint s threadId = some cp)
    (hok : handleTurn tok budget classify generate s userId threadId incoming =
      (Except.ok r, s')) :
    ∃ newCp, getCheckpoint s' threadId = some newCp ∧
      newCp.messages = cp.messages ++
        [{ role := Role.user, content := incoming }, r.1] ∧
      ∀ m, m ∈ cp.messages → m ∈ newCp.messages := by
  simp only [handleTurn] at hok
  rw [hcp] at hok
  split at hok
  · split at hok
    · simp at hok
    · rw [Prod.mk.injEq] at hok
      obtain ⟨h1, h2⟩ := hok
      injection h1 with h1'
      subst h1'
      subst h2
      refine ⟨_, getCheckpoint_putCheckpoint _ threadId _, ?_, ?_⟩
      · simp [List.append_assoc]
      · intro m hm
        simp [hm]
  · simp at hok

/-- Concrete tokenizer for the witnesses: character count of the content. -/
def wTok : Message → Nat := fun m => m.content.length

/-- Concrete classifier for the witnesses: everything is chitchat. -/
def wClassify : String → Intent := fun _ => Intent.chitchat

/-- Concrete collaborator for the witnesses: always replies with a fixed
clarifying text and a usage of 5 tokens. -/
def wGenerate : List Message → Option (String × Nat) :=
  fun _ => some ("Could you clarify?", 5)

/-- Witness for C7: an empty message on the sample thread is processed as a
normal turn, appended to the stored history, with a clarifying reply. -/
theorem handleTurn_empty_message_valid_witness :
    sampleDB.threads.any (fun t => t.id == 3) = true ∧
    wGenerate (trim wTok 100
      (((getCheckpoint sampleDB 3).getD defaultCp).messages ++
        [{ role := Role.user, content := "" }])) =
      some ("Could you clarify?", 5) ∧
    ((handleTurn wTok 100 wClassify wGenerate sampleDB 1 3 "").1 =
      Except.ok ({ role := Role.assistant, content := "Could you clarify?" },
        advanceState ((getCheckpoint sampleDB 3).getD defaultCp).wstate
          (wClassify "") == WorkflowState.responded) ∧
    getCheckpoint (handleTurn wTok 100 wClassify wGenerate sampleDB 1 3 "").2 3 =
      some (Checkpoint.mk
        (((getCheckpoint sampleDB 3).getD defaultCp).messages ++
          [{ role := Role.user, content := "" },
           { role := Role.assistant, content := "Could you clarify?" }])
        (advanceState ((getCheckpoint sampleDB 3).getD defaultCp).wstate
          (wClassify "")))) :=
  ⟨rfl, rfl, handleTurn_empty_message_valid wTok 100 wClassify wGenerate
    sampleDB 1 3 "Could you clarify?" 5 rfl rfl⟩

/-- Witness for C8: a concrete turn on the sample thread persists the full
prior history plus the two new messages; nothing trimmed is lost. -/
theorem trim_read_side_copy_witness :
    getCheckpoint sampleDB 3 = some sampleCp ∧
    handleTurn wTok 100 wClassify wGenerate sampleDB 1 3 "pizza" =
      (Except.ok ({ role := Role.assistant, content := "Could you clarify?" },
        false),
       (handleTurn wTok 100 wClassify wGenerate sampleDB 1 3 "pizza").2) ∧
    (∃ newCp,
      getCheckpoint
        (handleTurn wTok 100 wClassify wGenerate sampleDB 1 3 "pizza").2 3 =
        some newCp ∧
      newCp.messages = sampleCp.messages ++
        [{ role := Role.user, content := "pizza" },
         { role := Role.assistant, content := "Could you clarify?" }] ∧
      ∀ m, m ∈ sampleCp.messages → m ∈ newCp.messages) :=
  ⟨rfl, rfl, trim_read_side_copy wTok 100 wClassify wGenerate sampleDB 1 3
    sampleCp "pizza"
    ({ role := Role.assistant, content := "Could you clarify?" }, false)
    (handleTurn wTok 100 wClassify wGenerate sampleDB 1 3 "pizza").2 rfl rfl⟩

end MIAm
